import Mathlib

/-!
Shallow embedding of the request-routing and upstream-client core of the
libreddit wasm port: src/client.rs, src/server.rs and the route table of
src/lib.rs. Strings are modelled by Lean strings, header maps by
association lists whose names are lowercase (the Fetch Headers object
normalizes header names to lowercase on insertion and lookup), HTTP
statuses by Nat, and JSON values by an inductive type mirroring the
serde_json Value type. Rust string routines (replace, trim_start_matches)
are translated with an explicit fuel argument equal to the input length,
which is always sufficient because every step consumes at least one
character; this keeps them reducible by the kernel.
-/

namespace Libreddit

/-- Primitive string pieces that cannot appear literally in this file:
an apostrophe character, written by code point. -/
def apos : String := String.mk [Char.ofNat 39]

/-- ASCII lowercasing of a header name, modelling the lowercase
normalization performed by the Fetch Headers object. -/
def lowerStr (s : String) : String := String.mk (s.toList.map Char.toLower)

/-- Headers.get: case-insensitive lookup of the first entry with the
queried name. Stored names are already lowercase. -/
def hget (hs : List (String × String)) (k : String) : Option String :=
  (hs.find? (fun p => p.1 == lowerStr k)).map (fun p => p.2)

/-- Headers.set: replace the value of an existing entry with the given
(lowercased) name, or append a new entry. -/
def hset (hs : List (String × String)) (k v : String) : List (String × String) :=
  if (hs.find? (fun p => p.1 == lowerStr k)).isSome then
    hs.map (fun p => if p.1 == lowerStr k then (p.1, v) else p)
  else
    hs ++ [(lowerStr k, v)]

/-- Headers.delete: remove every entry with the given (lowercased) name. -/
def hdelete (hs : List (String × String)) (k : String) : List (String × String) :=
  hs.filter (fun p => !(p.1 == lowerStr k))

/-- Rust str::replace on character lists: scan left to right, replacing
each non-overlapping occurrence of the pattern `p :: ps` by `rep`. The
fuel argument bounds the recursion and is sufficient whenever it is at
least the length of the scanned list. -/
def replaceGo (p : Char) (ps rep : List Char) : Nat → List Char → List Char
  | 0, l => l
  | _ + 1, [] => []
  | fuel + 1, c :: rest =>
    if (p :: ps).isPrefixOf (c :: rest) then
      rep ++ replaceGo p ps rep fuel (rest.drop ps.length)
    else
      c :: replaceGo p ps rep fuel rest

/-- Rust str::replace, lifted to strings. An empty pattern never occurs
in the translated code; it is mapped to the identity. -/
def rustReplace (s pat rep : String) : String :=
  match pat.toList with
  | [] => s
  | p :: ps => String.mk (replaceGo p ps rep.toList s.toList.length s.toList)

/-- Rust str::trim_start_matches on character lists: repeatedly remove
the pattern `p :: ps` while it is a prefix. Fuel as in replaceGo. -/
def trimStartGo (p : Char) (ps : List Char) : Nat → List Char → List Char
  | 0, l => l
  | fuel + 1, l =>
    if (p :: ps).isPrefixOf l then trimStartGo p ps fuel (l.drop (ps.length + 1)) else l

/-- Rust str::trim_start_matches, lifted to strings. -/
def trimStartMatches (s pat : String) : String :=
  match pat.toList with
  | [] => s
  | p :: ps => String.mk (trimStartGo p ps s.toList.length s.toList)

/-- Uppercase hexadecimal digit for a value below 16. -/
def hexDigit (n : Nat) : Char :=
  if n < 10 then Char.ofNat (48 + n) else Char.ofNat (55 + n)

/-- percent_encoding::percent_encode with the CONTROLS set: a C0 control
character (below 0x20) or 0x7f is written as a percent escape with
uppercase hexadecimal digits; every other character passes through.
Characters above 0x7f encode to bytes above 0x7f, which the CONTROLS set
leaves untouched, so the character-level model is faithful. -/
def pctEncodeChar (c : Char) : List Char :=
  if c.toNat < 32 ∨ c.toNat = 127 then
    [Char.ofNat 37, hexDigit (c.toNat / 16), hexDigit (c.toNat % 16)]
  else
    [c]

/-- percent_encode(bytes, CONTROLS).to_string() from client.rs line 55. -/
def percentEncodeControls (s : String) : String :=
  String.mk (s.toList.map pctEncodeChar).flatten

/-- REDDIT_URL_BASE from client.rs line 21. -/
def REDDIT_URL_BASE : String := "https://www.reddit.com"

/-- Rust u16::to_string().starts_with(d): the first character of the
decimal representation of the status equals d. -/
def statusStartsWith (s : Nat) (d : Char) : Bool :=
  (Nat.repr s).toList.head? = some d

/-- Outcome of the single HEAD request made by canonical_path: the HTTP
status and the (lowercase-named) response headers. -/
structure HeadResponse where
  status : Nat
  headers : List (String × String)

/-- canonical_path from client.rs lines 36 to 60, as a function of the
input path and of the HEAD response. The Location branch translates
res.headers().get("location").ok().map(...): for the valid header name
"location" the get call is infallible, so .ok() always yields a some
around the optional header value, and the closure applies
unwrap_or_default to the inner option before percent encoding and prefix
trimming. -/
def canonical_path (path : String) (res : HeadResponse) : Except String (Option String) :=
  if res.status = 429 then
    Except.error "Too many requests."
  else if statusStartsWith res.status (Char.ofNat 50) then
    Except.ok (some path)
  else if !statusStartsWith res.status (Char.ofNat 51) then
    Except.ok none
  else
    Except.ok ((some (hget res.headers "location")).map (fun val =>
      trimStartMatches (percentEncodeControls (val.getD "")) REDDIT_URL_BASE))

/-- Crate version substituted by env!("CARGO_PKG_VERSION"); the manifest
is not part of the sources, and no claim depends on the exact value. -/
def cargoPkgVersion : String := "0.0.0"

/-- Outbound request shape produced by the request builder in client.rs
lines 133 to 160: method, absolute URL, redirect policy and headers. -/
structure OutboundRequest where
  method : String
  url : String
  redirect : Bool
  headers : List (String × String)

/-- request from client.rs lines 133 to 160: builds the Reddit URL from
the path and sets the fixed header profile. -/
def request (method : String) (path : String) (redirect : Bool) (quarantine : Bool) :
    OutboundRequest :=
  let h0 : List (String × String) := []
  let h1 := hset h0 "User-Agent" ("web:libreddit:" ++ cargoPkgVersion)
  let h2 := hset h1 "Host" "www.reddit.com"
  let h3 := hset h2 "Accept" "text/html,application/xhtml+xml,application/xml;q=0.9,image/webp,*/*;q=0.8"
  let h4 := hset h3 "Accept-Encoding" (if method = "GET" then "gzip" else "identity")
  let h5 := hset h4 "Accept-Language" "en-US,en;q=0.5"
  let h6 := hset h5 "Connection" "keep-alive"
  let h7 := hset h6 "Cookie"
    (if quarantine then "_options=%7B%22pref_quarantine_optin%22%3A%20true%7D" else "")
  { method := method, url := REDDIT_URL_BASE ++ path, redirect := redirect, headers := h7 }

/-- reddit_get from client.rs lines 121 to 123: GET with redirects
followed. -/
def reddit_get (path : String) (quarantine : Bool) : OutboundRequest :=
  request "GET" path true quarantine

/-- reddit_head from client.rs lines 126 to 128: HEAD without following
redirects. -/
def reddit_head (path : String) (quarantine : Bool) : OutboundRequest :=
  request "HEAD" path false quarantine

/-- JSON values, mirroring serde_json Value. Numbers produced by
serde_wasm_bindgen from integral JS numbers are stored as integers (the
is_i64 test answers true exactly for those); other numbers are collapsed
into the float constructor, for which is_i64 answers false. -/
inductive Json where
  | null
  | bool (b : Bool)
  | int (n : Int)
  | float
  | str (s : String)
  | arr (elems : List Json)
  | obj (fields : List (String × Json))

/-- Value::index with a string key: field lookup on objects, Null on a
missing field and on every non-object. -/
def jindex (j : Json) (key : String) : Json :=
  match j with
  | Json.obj fields => (((fields.find? (fun f => f.1 == key)).map (fun f => f.2)).getD Json.null)
  | _ => Json.null

/-- Value::is_i64. -/
def Json.isI64 : Json → Bool
  | Json.int _ => true
  | _ => false

/-- Value::as_str. -/
def Json.asStr : Json → Option String
  | Json.str s => some s
  | _ => none

/-- Modelled from the spec: utils::promise lives in src/utils.rs, which
is not among the provided sources. The spec states that transport
failures of the same helper surface as an Error carrying a
human-readable cause, so a rejected JS promise is modelled as an
Except.error that the question-mark operator in client.rs propagates. -/
def promiseResult (p : Except String α) : Except String α := p

/-- Error message of the status-500 branch of json, client.rs line 176. -/
def upstream_issues_message : String :=
  "Reddit is having issues, check if there" ++ apos ++ "s an outage"

/-- json from client.rs lines 164 to 204, as a function of the received
status and of the body outcome. The body outcome models the promise
returned by res.json(): an error is a rejected parse promise (the body
is not valid JSON text); Except.ok none is a parsed JS value that
serde_wasm_bindgen fails to convert, which unwrap_or_default replaces by
the default Value (null); Except.ok (some j) is a converted value j. The
rare synchronous failure of res.json() itself (body already consumed) is
collapsed into the rejection case, which also yields an error. -/
def json_of_response (status : Nat) (body : Except String (Option Json)) : Except String Json :=
  if 500 ≤ status then
    Except.error upstream_issues_message
  else
    match promiseResult body with
    | Except.error e => Except.error e
    | Except.ok conv =>
      let j := conv.getD Json.null
      if (jindex j "error").isI64 then
        Except.error (((jindex j "reason").asStr).getD
          (((jindex j "message").asStr).getD "Error parsing reddit error"))
      else
        Except.ok j

/-- Memoization cache state of the wrapper generated by the cached crate
attribute on canonical_path (client.rs line 35, size 1024, time 600) and
json (client.rs line 163, size 100, time 30): a TimedSizedCache holding,
in insertion order, entries of key, stored value and storage time. -/
structure MemoCache (K V : Type) where
  entries : List (K × V × Nat)

/-- TimedSizedCache.cache_get: the stored value of the key, provided the
entry has not expired (the age of the entry is below the ttl, written
here as now < storedAt + ttl for a monotone clock). -/
def cacheGet {K V : Type} [DecidableEq K] (c : MemoCache K V) (now ttl : Nat) (k : K) :
    Option V :=
  match c.entries.find? (fun ent => ent.1 == k) with
  | some ent => if now < ent.2.2 + ttl then some ent.2.1 else none
  | none => none

/-- TimedSizedCache.cache_set: replace any entry of the key by a fresh
one at the end, evicting the oldest entries once the size bound is
exceeded. -/
def cacheSet {K V : Type} [DecidableEq K] (c : MemoCache K V) (size now : Nat) (k : K)
    (v : V) : MemoCache K V :=
  let kept := c.entries.filter (fun ent => !(ent.1 == k))
  let appended := kept ++ [(k, v, now)]
  MemoCache.mk (if size < appended.length then appended.drop (appended.length - size) else appended)

/-- Memoized call as generated by the cached crate for a function with
result = true (client.rs lines 35 and 163): look the key up; on a hit
return the cached value without running the body; on a miss run the body
and store the returned value only when it is Ok — the Err variant is not
written to the cache. The Bool component of the result records whether
the body ran. -/
def memoCall {K V E : Type} [DecidableEq K] (c : MemoCache K V) (now ttl size : Nat) (k : K)
    (compute : Except E V) : Except E V × MemoCache K V × Bool :=
  match cacheGet c now ttl k with
  | some v => (Except.ok v, c, false)
  | none =>
    match compute with
    | Except.ok v => (Except.ok v, cacheSet c size now k v, true)
    | Except.error e => (Except.error e, c, true)

/-- Interleaving model of the same generated wrapper under concurrent
callers of one key. A caller first checks the cache under the lock (one
atomic step), then — because the wrapper does not hold the lock while
the body runs and sync_writes is not set — runs the body outside the
lock, and finally stores an Ok result (one atomic step). The state
counts callers that have not yet checked, callers currently running the
body, the results the finished callers received, and how many times the
body was started. -/
structure SFState (E V : Type) where
  cache : Option V
  unchecked : Nat
  computing : Nat
  results : List (Except E V)
  invocations : Nat

/-- Scheduler steps: let one caller perform its cache check, or let one
running caller complete its computation. -/
inductive SFStep where
  | check
  | complete

/-- Store step of the wrapper: an Ok result is written to the cache, an
Err result leaves it unchanged (result = true). -/
def sfStore {E V : Type} (compute : Except E V) (c : Option V) : Option V :=
  match compute with
  | Except.ok v => some v
  | Except.error _ => c

/-- One scheduler step. A checking caller returns the cached value on a
hit and otherwise starts the body; a completing caller records the
result of the (deterministic) computation and stores it in the cache
when it is Ok. -/
def sfStep {E V : Type} (compute : Except E V) (s : SFState E V) : SFStep → SFState E V
  | SFStep.check =>
    if s.unchecked = 0 then s
    else
      match s.cache with
      | some v =>
        { s with unchecked := s.unchecked - 1, results := Except.ok v :: s.results }
      | none =>
        { s with unchecked := s.unchecked - 1, computing := s.computing + 1,
                 invocations := s.invocations + 1 }
  | SFStep.complete =>
    if s.computing = 0 then s
    else
      { s with computing := s.computing - 1, results := compute :: s.results,
               cache := sfStore compute s.cache }

/-- Run a schedule of steps from a state. -/
def sfRun {E V : Type} (compute : Except E V) (steps : List SFStep) (s : SFState E V) :
    SFState E V :=
  steps.foldl (sfStep compute) s

/-- Initial state for n concurrent callers of one key on a cold cache. -/
def sfInit {E V : Type} (n : Nat) : SFState E V :=
  { cache := none, unchecked := n, computing := 0, results := [], invocations := 0 }

/-- Helper wrapping a word in single quotation marks, used to spell the
content-security-policy value. -/
def quoted (s : String) : String := apos ++ s ++ apos

/-- Default response headers from lib.rs lines 82 to 87. The source
stores them in a HashMap whose iteration order is unspecified; the four
names are distinct, so every property proved below is independent of the
order of this list. -/
def default_headers : List (String × String) :=
  [("Referrer-Policy", "no-referrer"),
   ("X-Content-Type-Options", "nosniff"),
   ("X-Frame-Options", "DENY"),
   ("Content-Security-Policy",
    "default-src " ++ quoted "none" ++ "; font-src " ++ quoted "self" ++
    "; script-src " ++ quoted "self" ++ " blob:; manifest-src " ++ quoted "self" ++
    "; media-src " ++ quoted "self" ++ " data: blob: about:; style-src " ++ quoted "self" ++
    " " ++ quoted "unsafe-inline" ++ "; base-uri " ++ quoted "none" ++
    "; img-src " ++ quoted "self" ++ " data:; form-action " ++ quoted "self" ++
    "; frame-ancestors " ++ quoted "none" ++ "; connect-src " ++ quoted "self" ++
    "; worker-src blob:;")]

/-- Server::serve success path, server.rs lines 187 to 193: for each
default header, res.headers().set(key, value) is called on the response
the handler produced. -/
def apply_default_headers (res : List (String × String)) : List (String × String) :=
  default_headers.foldl (fun hs kv => hset hs kv.1 kv.2) res

/-- Request-header allow list of stream, client.rs line 85. -/
def allowed_request_headers : List String := ["Range", "If-Modified-Since", "Cache-Control"]

/-- stream, client.rs lines 84 to 89: starting from a fresh Headers
object, copy each allow-listed header from the inbound request when it
is present; every other inbound header is dropped because the outbound
request starts from the empty header set. -/
def outbound_proxy_headers (reqHeaders : List (String × String)) : List (String × String) :=
  allowed_request_headers.foldl
    (fun hs key =>
      match hget reqHeaders key with
      | some value => hset hs key value
      | none => hs) []

/-- Response-header deny list of stream, client.rs lines 100 to 109. -/
def denied_response_headers : List String :=
  ["access-control-expose-headers", "server", "vary", "etag", "x-cdn",
   "x-cdn-client-region", "x-cdn-name", "x-cdn-server-region", "x-reddit-cdn",
   "x-reddit-video-features"]

/-- Upstream response as relayed by stream: status, status text,
headers, and the body stream (modelled as the byte list it carries). -/
structure UpstreamResponse where
  status : Nat
  statusText : String
  headers : List (String × String)
  body : List Nat

/-- stream, client.rs lines 97 to 116: delete each deny-listed header
from the upstream response headers, then rebuild a response with the
upstream status, status text, remaining headers and the unmodified body
stream. -/
def stream_response (upstream : UpstreamResponse) : UpstreamResponse :=
  { status := upstream.status, statusText := upstream.statusText,
    headers := denied_response_headers.foldl hdelete upstream.headers,
    body := upstream.body }

/-- RequestExt::uri, server.rs lines 53 to 61: when the query string of
the inbound URL is empty it is rewritten to the placeholder query, and
proxy later reads back this search string. -/
def uriSearch (rawSearch : String) : String :=
  if rawSearch = "" then "?_" else rawSearch

/-- Parameter substitution loop of proxy, client.rs lines 66 to 70: for
each captured route parameter, replace every brace-wrapped occurrence of
its name in the accumulated URL by its value. -/
def substParams (u : String) (params : List (String × String)) : String :=
  params.foldl (fun acc kv => rustReplace acc ("\x7b" ++ kv.1 ++ "\x7d") kv.2) u

/-- proxy, client.rs lines 62 to 73: append the search string of the
inbound request URI to the template first, then run the parameter
substitution loop over the concatenation. -/
def proxyUrl (template : String) (params : List (String × String)) (rawSearch : String) :
    String :=
  substParams (template ++ uriSearch rawSearch) params

/-- Inbound path normalization of Server::serve, server.rs lines 168 to
174: collapse double slashes, decode the encoded slash, then drop one
trailing slash unless the whole path is the root. -/
def normalize_path (pathname : String) : String :=
  let path := rustReplace (rustReplace pathname "//" "/") "%2F" "/"
  if path ≠ "/" ∧ path.toList.getLast? = some (Char.ofNat 47) then
    String.mk path.toList.dropLast
  else
    path

/-- Router lookup key of Server::serve, server.rs line 177: a slash, the
HTTP method, and the normalized path. -/
def route_key (method : String) (pathname : String) : String :=
  "/" ++ method ++ normalize_path pathname

/-- Front-page sort keywords of the single-segment route, lib.rs line
206. -/
def front_page_sorts : List String :=
  ["best", "hot", "new", "top", "rising", "controversial"]

/-- Rust char::len_utf8, so that rustStrLen matches Rust str::len, which
counts UTF-8 bytes. -/
def rustCharLen (c : Char) : Nat :=
  if c.toNat < 128 then 1
  else if c.toNat < 2048 then 2
  else if c.toNat < 65536 then 3
  else 4

/-- Rust str::len: the UTF-8 byte length of the string. -/
def rustStrLen (s : String) : Nat :=
  s.toList.foldl (fun n c => n + rustCharLen c) 0

/-- Action taken by the /:id handler, lib.rs lines 202 to 221. -/
inductive ShortLinkAction where
  | community
  | canonical (path : String)
  | nothingHere
deriving DecidableEq

/-- Handler of the single-segment route /:id, lib.rs lines 202 to 221:
a front-page sort keyword renders the front page; any other id whose
byte length lies in the range 5..8 is resolved through canonical_path
on the slash-prefixed id; everything else is the Nothing-here error
page, with no upstream call. -/
def short_link_route (id : String) : ShortLinkAction :=
  if id ∈ front_page_sorts then ShortLinkAction.community
  else if 5 ≤ rustStrLen id ∧ rustStrLen id < 8 then ShortLinkAction.canonical ("/" ++ id)
  else ShortLinkAction.nothingHere

/-- C1: on a 3xx HEAD response that carries no Location header,
canonical_path returns Ok (some "") — the absent header is replaced by
the empty string by unwrap_or_default inside the mapped closure — and
not Ok none, as both the claim and the documentation comment on the
source function (client.rs lines 31 to 34) state. -/
theorem canonical_path_301_without_location :
    canonical_path "/abc12" { status := 301, headers := [] } = Except.ok (some "") ∧
    canonical_path "/abc12" { status := 301, headers := [] } ≠ Except.ok none := by
  have h1 : canonical_path "/abc12" { status := 301, headers := [] } = Except.ok (some "") :=
    rfl
  refine ⟨h1, ?_⟩
  rw [h1]
  intro h
  simp at h

/-- C6: json issues a GET with redirects followed, and any upstream
status of at least 500 yields the fixed upstream-issues error message,
whatever the body outcome is — the body is never inspected. -/
theorem json_uses_get_and_500_generic (path : String) (q : Bool) (status : Nat)
    (body : Except String (Option Json)) (h : 500 ≤ status) :
    (reddit_get path q).method = "GET" ∧ (reddit_get path q).redirect = true ∧
    json_of_response status body = Except.error upstream_issues_message := by
  refine ⟨rfl, rfl, ?_⟩
  simp [json_of_response, h]

/-- Witness for json_uses_get_and_500_generic at status 502 and an
arbitrary body. -/
theorem json_uses_get_and_500_generic_witness :
    (500 ≤ 502) ∧
    ((reddit_get "/r/rust/hot.json" false).method = "GET" ∧
     (reddit_get "/r/rust/hot.json" false).redirect = true ∧
     json_of_response 502 (Except.ok (some (Json.str "ignored")))
       = Except.error upstream_issues_message) :=
  ⟨by decide,
   json_uses_get_and_500_generic "/r/rust/hot.json" false 502
     (Except.ok (some (Json.str "ignored"))) (by decide)⟩

/-- C7 counterexample: a body that is not valid JSON text makes the
parse promise returned by res.json() reject, and the question-mark
operator on the awaited promise turns that rejection into an error
result of json — the default JSON value is not substituted in this
case. -/
theorem json_parse_rejection_errors_cex :
    json_of_response 200 (Except.error "SyntaxError: Unexpected end of JSON input")
      = Except.error "SyntaxError: Unexpected end of JSON input" ∧
    json_of_response 200 (Except.error "SyntaxError: Unexpected end of JSON input")
      ≠ Except.ok Json.null := by
  have h1 : json_of_response 200 (Except.error "SyntaxError: Unexpected end of JSON input")
      = Except.error "SyntaxError: Unexpected end of JSON input" := rfl
  refine ⟨h1, ?_⟩
  rw [h1]
  intro h
  simp at h

/-- Evaluation lemma for Value::as_str on a string value. -/
theorem asStr_str (s : String) : (Json.str s).asStr = some s := rfl

/-- C7 amended: below status 500, a rejected JSON parse is propagated as
an error; a parsed value that does not convert is replaced by the
default (null) value; a converted value with an integer error field
fails with reason, then message, then the generic parse-error string, in
that priority order; otherwise the converted value is returned. -/
theorem json_body_handling (status : Nat) (e : String) (j : Json) (hs : status < 500) :
    (json_of_response status (Except.error e) = Except.error e) ∧
    (json_of_response status (Except.ok none) = Except.ok Json.null) ∧
    ((jindex j "error").isI64 = false →
      json_of_response status (Except.ok (some j)) = Except.ok j) ∧
    ((jindex j "error").isI64 = true →
      (∀ r, jindex j "reason" = Json.str r →
        json_of_response status (Except.ok (some j)) = Except.error r) ∧
      ((jindex j "reason").asStr = none →
        ∀ m, jindex j "message" = Json.str m →
          json_of_response status (Except.ok (some j)) = Except.error m) ∧
      ((jindex j "reason").asStr = none → (jindex j "message").asStr = none →
        json_of_response status (Except.ok (some j))
          = Except.error "Error parsing reddit error")) := by
  have hns : ¬ 500 ≤ status := by omega
  refine ⟨?_, ?_, ?_, ?_⟩
  · simp [json_of_response, promiseResult, hns]
  · simp [json_of_response, promiseResult, hns, jindex, Json.isI64]
  · intro hfalse
    simp [json_of_response, promiseResult, hns, hfalse]
  · intro htrue
    refine ⟨?_, ?_, ?_⟩
    · intro r hr
      simp [json_of_response, promiseResult, hns, htrue, hr, Json.asStr]
    · intro hreason m hm
      simp [json_of_response, promiseResult, hns, htrue, hreason, hm, asStr_str]
    · intro hreason hmsg
      simp [json_of_response, promiseResult, hns, htrue, hreason, hmsg]

/-- Witness for json_body_handling: an upstream payload with an integer
error field and a string reason fails with the reason value. -/
theorem json_body_handling_witness :
    (200 : Nat) < 500 ∧
    json_of_response 200
        (Except.ok (some (Json.obj [("error", Json.int 404), ("reason", Json.str "banned")])))
      = Except.error "banned" :=
  ⟨by decide,
   ((json_body_handling 200 "x"
       (Json.obj [("error", Json.int 404), ("reason", Json.str "banned")])
       (by decide)).2.2.2 rfl).1 "banned" rfl⟩

/-- C2 counterexample: an Err result of the memoized computation is not
stored — after a first call that fails, the cache is still empty, and a
second call with the same key one second later (far below the 600s ttl)
runs the computation again. -/
theorem memoized_error_not_cached_cex :
    (memoCall (MemoCache.mk ([] : List (String × Option String × Nat))) 0 600 1024 "/abc12"
        (Except.error "Too many requests.")).1 = Except.error "Too many requests." ∧
    (memoCall (MemoCache.mk ([] : List (String × Option String × Nat))) 0 600 1024 "/abc12"
        (Except.error "Too many requests.")).2.1.entries = [] ∧
    (memoCall
        (memoCall (MemoCache.mk ([] : List (String × Option String × Nat))) 0 600 1024 "/abc12"
            (Except.error "Too many requests.")).2.1
        1 600 1024 "/abc12" (Except.error "Too many requests.")).2.2 = true :=
  ⟨rfl, rfl, rfl⟩

/-- C2 amended: the wrapper generated for result = true caches only the
Ok variant. A failing computation returns its error, leaves the cache
empty and is therefore run again by the next call; a successful
computation is stored, and a second call with the same key before the
entry expires returns the cached Ok value without running any
computation. -/
theorem memoized_result_true_semantics {K V E : Type} [DecidableEq K] (k : K) (e : E) (v : V)
    (now1 now2 ttl size : Nat) (c2 : Except E V)
    (hsize : 1 ≤ size) (hfresh : now2 < now1 + ttl) :
    memoCall (MemoCache.mk ([] : List (K × V × Nat))) now1 ttl size k (Except.error e)
      = (Except.error e, MemoCache.mk [], true) ∧
    memoCall
        ((memoCall (MemoCache.mk ([] : List (K × V × Nat))) now1 ttl size k
            (Except.ok v : Except E V)).2.1)
        now2 ttl size k c2
      = (Except.ok v,
         (memoCall (MemoCache.mk ([] : List (K × V × Nat))) now1 ttl size k
            (Except.ok v : Except E V)).2.1,
         false) := by
  have hlt : ¬ size < 1 := by omega
  refine ⟨rfl, ?_⟩
  simp [memoCall, cacheGet, cacheSet, hlt, hfresh]

/-- Witness for memoized_result_true_semantics with the canonical_path
cache parameters. -/
theorem memoized_result_true_semantics_witness :
    (1 ≤ 1024) ∧ (5 < 0 + 600) ∧
    (memoCall (MemoCache.mk ([] : List (String × Option String × Nat))) 0 600 1024 "/abc12"
        (Except.error "boom")
      = (Except.error "boom", MemoCache.mk [], true) ∧
    memoCall
        ((memoCall (MemoCache.mk ([] : List (String × Option String × Nat))) 0 600 1024 "/abc12"
            (Except.ok (some "/r/aww/comments/xyz") : Except String (Option String))).2.1)
        5 600 1024 "/abc12" (Except.error "ignored")
      = (Except.ok (some "/r/aww/comments/xyz"),
         (memoCall (MemoCache.mk ([] : List (String × Option String × Nat))) 0 600 1024 "/abc12"
            (Except.ok (some "/r/aww/comments/xyz") : Except String (Option String))).2.1,
         false)) :=
  ⟨by decide, by decide,
   memoized_result_true_semantics "/abc12" "boom" (some "/r/aww/comments/xyz") 0 5 600 1024
     (Except.error "ignored") (by decide) (by decide)⟩

/-- C3 counterexample: a legal interleaving of two concurrent callers of
the same key on a cold cache, both of which pass the cache check before
either completes. Each runs the computation, so the body is started
twice, not once, even though both callers receive the identical
result. -/
theorem single_flight_violated_cex :
    (sfRun (Except.ok "/r/aww")
        [SFStep.check, SFStep.check, SFStep.complete, SFStep.complete]
        (sfInit 2 : SFState String String)).invocations = 2 ∧
    (sfRun (Except.ok "/r/aww")
        [SFStep.check, SFStep.check, SFStep.complete, SFStep.complete]
        (sfInit 2 : SFState String String)).results
      = [Except.ok "/r/aww", Except.ok "/r/aww"] :=
  ⟨rfl, rfl⟩

/-- Running m cache checks from a state whose cache is empty moves m
callers from unchecked to computing and starts the body m times. -/
theorem sfRun_checks_miss {E V : Type} (compute : Except E V) :
    ∀ (m : Nat) (s : SFState E V), s.cache = none → m ≤ s.unchecked →
      sfRun compute (List.replicate m SFStep.check) s =
        { s with unchecked := s.unchecked - m, computing := s.computing + m,
                 invocations := s.invocations + m } := by
  intro m
  induction m with
  | zero =>
    intro s hc _
    cases s
    simp [sfRun]
  | succ m ih =>
    intro s hc hm
    have hne : ¬ s.unchecked = 0 := by omega
    have hstep : sfStep compute s SFStep.check =
        { s with unchecked := s.unchecked - 1, computing := s.computing + 1,
                 invocations := s.invocations + 1 } := by
      simp [sfStep, hne, hc]
    rw [List.replicate_succ,
        show sfRun compute (SFStep.check :: List.replicate m SFStep.check) s
          = sfRun compute (List.replicate m SFStep.check) (sfStep compute s SFStep.check)
        from rfl,
        hstep,
        ih { s with unchecked := s.unchecked - 1, computing := s.computing + 1,
                    invocations := s.invocations + 1 }
           hc (show m ≤ s.unchecked - 1 by omega)]
    cases s with
    | mk cache unchecked computing results invocations =>
      simp only [SFState.mk.injEq]
      refine ⟨trivial, by omega, by omega, trivial, by omega⟩

/-- Running m completions from a state with at least m computing callers
hands each of them the computation result and changes neither the
invocation count nor the unchecked callers. -/
theorem sfRun_completes {E V : Type} (compute : Except E V) :
    ∀ (m : Nat) (s : SFState E V), m ≤ s.computing →
      (sfRun compute (List.replicate m SFStep.complete) s).invocations = s.invocations ∧
      (sfRun compute (List.replicate m SFStep.complete) s).results
        = List.replicate m compute ++ s.results ∧
      (sfRun compute (List.replicate m SFStep.complete) s).unchecked = s.unchecked ∧
      (sfRun compute (List.replicate m SFStep.complete) s).computing = s.computing - m := by
  intro m
  induction m with
  | zero =>
    intro s _
    simp [sfRun]
  | succ m ih =>
    intro s hm
    have hne : ¬ s.computing = 0 := by omega
    have hstep : sfStep compute s SFStep.complete =
        { s with computing := s.computing - 1, results := compute :: s.results,
                 cache := sfStore compute s.cache } := by
      simp [sfStep, hne]
    rw [List.replicate_succ,
        show sfRun compute (SFStep.complete :: List.replicate m SFStep.complete) s
          = sfRun compute (List.replicate m SFStep.complete) (sfStep compute s SFStep.complete)
        from rfl,
        hstep]
    obtain ⟨h1, h2, h3, h4⟩ := ih
        { s with computing := s.computing - 1, results := compute :: s.results,
                 cache := sfStore compute s.cache }
        (show m ≤ s.computing - 1 by omega)
    rw [h1, h2, h3, h4]
    refine ⟨rfl, ?_, rfl, show s.computing - 1 - m = s.computing - (m + 1) by omega⟩
    show List.replicate m compute ++ (compute :: s.results)
      = List.replicate (m + 1) compute ++ s.results
    rw [List.replicate_succ']
    simp

/-- C3 amended: the generated wrapper provides no single flight. When
all n concurrent callers of one key pass the cache check before any of
them completes, the computation body is started n times — once per
caller — and every caller receives the result of the (deterministic)
computation, so all results are identical. -/
theorem concurrent_misses_each_invoke {E V : Type} (compute : Except E V) (n : Nat) :
    (sfRun compute (List.replicate n SFStep.check ++ List.replicate n SFStep.complete)
        (sfInit n)).invocations = n ∧
    (sfRun compute (List.replicate n SFStep.check ++ List.replicate n SFStep.complete)
        (sfInit n)).results = List.replicate n compute ∧
    (sfRun compute (List.replicate n SFStep.check ++ List.replicate n SFStep.complete)
        (sfInit n)).unchecked = 0 ∧
    (sfRun compute (List.replicate n SFStep.check ++ List.replicate n SFStep.complete)
        (sfInit n)).computing = 0 := by
  have hsplit :
      sfRun compute (List.replicate n SFStep.check ++ List.replicate n SFStep.complete)
          (sfInit n)
        = sfRun compute (List.replicate n SFStep.complete)
            (sfRun compute (List.replicate n SFStep.check) (sfInit n)) := by
    simp [sfRun, List.foldl_append]
  have hchecks := sfRun_checks_miss compute n (sfInit n) rfl (Nat.le_refl n)
  obtain ⟨h1, h2, h3, h4⟩ := sfRun_completes compute n
      (sfRun compute (List.replicate n SFStep.check) (sfInit n))
      (by rw [hchecks]; show n ≤ 0 + n; omega)
  rw [hsplit]
  refine ⟨?_, ?_, ?_, ?_⟩
  · rw [h1, hchecks]; show 0 + n = n; omega
  · rw [h2, hchecks]
    show List.replicate n compute ++ [] = List.replicate n compute
    simp
  · rw [h3, hchecks]; show n - n = 0; omega
  · rw [h4, hchecks]; show 0 + n - n = 0; omega

/-- C4 counterexample: normalization decodes the encoded slash after
collapsing double slashes, so a path whose encoded slashes sit next to
each other normalizes to a path that still contains a double slash, and
normalizing a second time changes it again — normalization is not
idempotent. -/
theorem normalize_not_idempotent_cex :
    normalize_path "/a%2F%2Fb" = "/a//b" ∧
    normalize_path (normalize_path "/a%2F%2Fb") = "/a/b" ∧
    normalize_path (normalize_path "/a%2F%2Fb") ≠ normalize_path "/a%2F%2Fb" := by
  have h1 : normalize_path "/a%2F%2Fb" = "/a//b" := rfl
  have h2 : normalize_path "/a//b" = "/a/b" := rfl
  refine ⟨h1, by rw [h1]; exact h2, ?_⟩
  rw [h1, h2]
  decide

/-- C4 amended: the two concrete paths of the claim do normalize to the
same string, so they produce the same router lookup key and dispatch to
the same route, even though normalization is not idempotent in
general. -/
theorem normalize_pair_same_route :
    route_key "GET" "/r//aww/" = route_key "GET" "/r/aww" ∧
    normalize_path "/r//aww/" = normalize_path "/r/aww" := by
  constructor <;> rfl

/-- UTF-8 byte length equals character count for lists of ASCII
characters. -/
theorem byteLen_ascii_list :
    ∀ (l : List Char), (∀ c ∈ l, c.toNat < 128) →
      ∀ a : Nat, l.foldl (fun n c => n + rustCharLen c) a = a + l.length := by
  intro l
  induction l with
  | nil => intro _ a; simp
  | cons c rest ih =>
    intro h a
    have hc : rustCharLen c = 1 := by
      have hlt := h c (List.mem_cons_self c rest)
      simp [rustCharLen, hlt]
    rw [List.foldl_cons, hc, ih (fun d hd => h d (List.mem_cons_of_mem c hd)) (a + 1)]
    simp [List.length_cons]
    omega

/-- Rust str::len equals the character count on ASCII strings. -/
theorem rustStrLen_ascii (s : String) (h : ∀ c ∈ s.toList, c.toNat < 128) :
    rustStrLen s = s.length := by
  have hfold := byteLen_ascii_list s.toList h 0
  unfold rustStrLen
  rw [hfold, Nat.zero_add]
  rfl

/-- C10: for an id of the single-segment route that is not a front-page
sort keyword (and is ASCII, as URL pathnames are), the handler resolves
it through canonical_path exactly when its length is 5, 6 or 7
characters, and returns the Nothing-here error page for every other
length, with no upstream call. -/
theorem short_link_canonical_iff_len (id : String)
    (hns : id ∉ front_page_sorts) (hascii : ∀ c ∈ id.toList, c.toNat < 128) :
    ((∃ p, short_link_route id = ShortLinkAction.canonical p) ↔
      (id.length = 5 ∨ id.length = 6 ∨ id.length = 7)) ∧
    ((id.length < 5 ∨ 8 ≤ id.length) →
      short_link_route id = ShortLinkAction.nothingHere) := by
  have hlen : rustStrLen id = id.length := rustStrLen_ascii id hascii
  constructor
  · constructor
    · rintro ⟨p, hp⟩
      simp only [short_link_route, if_neg hns] at hp
      by_cases hb : 5 ≤ rustStrLen id ∧ rustStrLen id < 8
      · omega
      · rw [if_neg hb] at hp
        exact absurd hp (by simp)
    · intro hl
      have hb : 5 ≤ rustStrLen id ∧ rustStrLen id < 8 := by omega
      exact ⟨"/" ++ id, by simp only [short_link_route, if_neg hns, if_pos hb]⟩
  · intro hl
    have hb : ¬ (5 ≤ rustStrLen id ∧ rustStrLen id < 8) := by omega
    simp only [short_link_route, if_neg hns, if_neg hb]

/-- Witness for short_link_canonical_iff_len: the five-character id
abc12 is resolved through canonical_path, and the two-character id ab
is not. -/
theorem short_link_canonical_iff_len_witness :
    (∃ p, short_link_route "abc12" = ShortLinkAction.canonical p) ∧
    short_link_route "ab" = ShortLinkAction.nothingHere :=
  ⟨(short_link_canonical_iff_len "abc12" (by decide) (by decide)).1.mpr
      (Or.inl (by decide)),
   (short_link_canonical_iff_len "ab" (by decide) (by decide)).2 (Or.inl (by decide))⟩

/-- Keys are untouched by the value-replacing map inside hset. -/
theorem hset_map_key (n v2 : String) (p : String × String) :
    (if p.1 == n then (p.1, v2) else p).1 = p.1 := by
  split <;> rfl

/-- Lookup is determined by the lowercased name. -/
theorem hget_congr (hs : List (String × String)) (k k2 : String)
    (heq : lowerStr k = lowerStr k2) : hget hs k = hget hs k2 := by
  unfold hget
  rw [heq]

/-- Evaluation of find? on a cons cell whose head matches. -/
theorem find?_cons_pair_pos (a : String × String) (t : List (String × String)) (n : String)
    (h : (a.1 == n) = true) :
    List.find? (fun p : String × String => p.1 == n) (a :: t) = some a := by
  simp [List.find?, h]

/-- Evaluation of find? on a cons cell whose head does not match. -/
theorem find?_cons_pair_neg (a : String × String) (t : List (String × String)) (n : String)
    (h : (a.1 == n) = false) :
    List.find? (fun p : String × String => p.1 == n) (a :: t)
      = List.find? (fun p : String × String => p.1 == n) t := by
  simp [List.find?, h]

/-- Headers.set followed by a lookup of the same (lowercased) name
yields the stored value. -/
theorem hget_hset_eq (hs : List (String × String)) (k k2 v : String)
    (heq : lowerStr k2 = lowerStr k) : hget (hset hs k v) k2 = some v := by
  unfold hget hset
  rw [heq]
  by_cases hf : (hs.find? (fun p => p.1 == lowerStr k)).isSome
  · rw [if_pos hf]
    have hcomp : ((fun p : String × String => p.1 == lowerStr k) ∘
        (fun p : String × String => if p.1 == lowerStr k then (p.1, v) else p))
        = (fun p : String × String => p.1 == lowerStr k) := by
      funext p
      simp only [Function.comp]
      rw [hset_map_key]
    rw [List.find?_map, hcomp]
    obtain ⟨p0, hp0⟩ := Option.isSome_iff_exists.mp hf
    rw [hp0]
    have hkey := List.find?_some hp0
    simp only at hkey
    have hkeq : p0.1 = lowerStr k := by simpa using hkey
    simp [hkeq]
  · rw [if_neg hf]
    have hnone : hs.find? (fun p => p.1 == lowerStr k) = none :=
      Option.not_isSome_iff_eq_none.mp hf
    rw [List.find?_append, hnone]
    simp

/-- Headers.set leaves lookups of every other name unchanged. -/
theorem hget_hset_ne (hs : List (String × String)) (k k2 v : String)
    (hne : lowerStr k2 ≠ lowerStr k) : hget (hset hs k v) k2 = hget hs k2 := by
  unfold hget hset
  by_cases hf : (hs.find? (fun p => p.1 == lowerStr k)).isSome
  · rw [if_pos hf]
    have hcomp : ((fun p : String × String => p.1 == lowerStr k2) ∘
        (fun p : String × String => if p.1 == lowerStr k then (p.1, v) else p))
        = (fun p : String × String => p.1 == lowerStr k2) := by
      funext p
      simp only [Function.comp]
      rw [hset_map_key]
    rw [List.find?_map, hcomp]
    cases hfind : hs.find? (fun p => p.1 == lowerStr k2) with
    | none => simp
    | some a =>
      have ha2 := List.find?_some hfind
      simp only at ha2
      have ha2eq : a.1 = lowerStr k2 := by simpa using ha2
      have hanot : (a.1 == lowerStr k) = false := by
        rw [ha2eq]
        exact beq_eq_false_iff_ne.mpr hne
      simp [ha2eq, hne]
  · rw [if_neg hf]
    have hnone : hs.find? (fun p => p.1 == lowerStr k) = none :=
      Option.not_isSome_iff_eq_none.mp hf
    rw [List.find?_append]
    have hsingle : (lowerStr k == lowerStr k2) = false :=
      beq_eq_false_iff_ne.mpr (fun h => hne h.symm)
    cases hfind : hs.find? (fun p => p.1 == lowerStr k2) with
    | some a => simp
    | none => simp [List.find?, hsingle]

/-- Headers.delete erases lookups of the deleted (lowercased) name. -/
theorem hget_hdelete_eq (hs : List (String × String)) (k k2 : String)
    (heq : lowerStr k2 = lowerStr k) : hget (hdelete hs k) k2 = none := by
  unfold hget hdelete
  rw [heq]
  induction hs with
  | nil => rfl
  | cons a t ih =>
    rw [List.filter_cons]
    by_cases ha : (a.1 == lowerStr k) = true
    · simp only [ha, Bool.not_true]
      rw [if_neg Bool.false_ne_true]
      exact ih
    · have ha2 : (a.1 == lowerStr k) = false := by simpa using ha
      simp only [ha2, Bool.not_false]
      rw [if_pos trivial, find?_cons_pair_neg a _ (lowerStr k) ha2]
      exact ih

/-- Headers.delete leaves lookups of every other name unchanged. -/
theorem hget_hdelete_ne (hs : List (String × String)) (k k2 : String)
    (hne : lowerStr k2 ≠ lowerStr k) : hget (hdelete hs k) k2 = hget hs k2 := by
  unfold hget hdelete
  induction hs with
  | nil => rfl
  | cons a t ih =>
    rw [List.filter_cons]
    by_cases ha : (a.1 == lowerStr k) = true
    · have haeq : a.1 = lowerStr k := by simpa using ha
      have ha2 : (a.1 == lowerStr k2) = false := by
        rw [haeq]
        exact beq_eq_false_iff_ne.mpr (fun h => hne h.symm)
      simp only [ha, Bool.not_true]
      rw [if_neg Bool.false_ne_true, ih, find?_cons_pair_neg a t (lowerStr k2) ha2]
    · have hano : (a.1 == lowerStr k) = false := by simpa using ha
      simp only [hano, Bool.not_false]
      rw [if_pos trivial]
      cases hk2 : (a.1 == lowerStr k2) with
      | true =>
        rw [find?_cons_pair_pos a _ (lowerStr k2) hk2,
            find?_cons_pair_pos a t (lowerStr k2) hk2]
      | false =>
        rw [find?_cons_pair_neg a _ (lowerStr k2) hk2,
            find?_cons_pair_neg a t (lowerStr k2) hk2]
        exact ih

/-- Folding Headers.delete over a list of names erases exactly the
lookups of those names. -/
theorem hget_foldl_hdelete (L : List String) :
    ∀ (hs : List (String × String)) (k : String),
      hget (L.foldl hdelete hs) k
        = if lowerStr k ∈ L.map lowerStr then none else hget hs k := by
  induction L with
  | nil =>
    intro hs k
    simp
  | cons d rest ih =>
    intro hs k
    rw [List.foldl_cons, ih]
    by_cases hk : lowerStr k = lowerStr d
    · rw [if_pos (show lowerStr k ∈ (d :: rest).map lowerStr by simp [hk])]
      by_cases hmem : lowerStr k ∈ rest.map lowerStr
      · rw [if_pos hmem]
      · rw [if_neg hmem]
        exact hget_hdelete_eq hs d k hk
    · by_cases hmem : lowerStr k ∈ rest.map lowerStr
      · rw [if_pos hmem, if_pos (show lowerStr k ∈ (d :: rest).map lowerStr by simp [hmem])]
      · rw [if_neg hmem,
            if_neg (show ¬ lowerStr k ∈ (d :: rest).map lowerStr by simp [hk, hmem])]
        exact hget_hdelete_ne hs d k hk

/-- C5 counterexample: the success path of Server::serve applies the
default headers with Headers.set after the handler has produced its
response, so a default header overwrites a header of the same name the
handler set — the handler does not win. -/
theorem default_headers_overwrite_cex :
    hget (apply_default_headers [("referrer-policy", "unsafe-url")]) "Referrer-Policy"
      = some "no-referrer" ∧
    hget (apply_default_headers [("referrer-policy", "unsafe-url")]) "Referrer-Policy"
      ≠ some "unsafe-url" := by
  have h1 : hget (apply_default_headers [("referrer-policy", "unsafe-url")]) "Referrer-Policy"
      = some "no-referrer" := rfl
  refine ⟨h1, ?_⟩
  rw [h1]
  decide

/-- C5 amended: for every header name in the default set the final
response carries the default value, overwriting any handler-set value of
the same name; headers whose name is not in the default set keep the
value the handler gave them. -/
theorem default_headers_win_merge (res : List (String × String)) :
    (∀ k v, (k, v) ∈ default_headers → hget (apply_default_headers res) k = some v) ∧
    (∀ k, lowerStr k ∉ default_headers.map (fun kv => lowerStr kv.1) →
      hget (apply_default_headers res) k = hget res k) := by
  constructor
  · intro k v hmem
    simp only [default_headers, List.mem_cons, List.not_mem_nil, or_false] at hmem
    rcases hmem with h | h | h | h
    all_goals rw [Prod.mk.injEq] at h
    all_goals obtain ⟨hk, hv⟩ := h
    all_goals subst hk
    all_goals subst hv
    · show hget (hset (hset (hset (hset res _ _) _ _) _ _) _ _) _ = _
      rw [hget_hset_ne _ _ _ _ (by decide), hget_hset_ne _ _ _ _ (by decide),
          hget_hset_ne _ _ _ _ (by decide), hget_hset_eq _ _ _ _ rfl]
    · show hget (hset (hset (hset (hset res _ _) _ _) _ _) _ _) _ = _
      rw [hget_hset_ne _ _ _ _ (by decide), hget_hset_ne _ _ _ _ (by decide),
          hget_hset_eq _ _ _ _ rfl]
    · show hget (hset (hset (hset (hset res _ _) _ _) _ _) _ _) _ = _
      rw [hget_hset_ne _ _ _ _ (by decide), hget_hset_eq _ _ _ _ rfl]
    · show hget (hset (hset (hset (hset res _ _) _ _) _ _) _ _) _ = _
      rw [hget_hset_eq _ _ _ _ rfl]
  · intro k hk
    simp only [default_headers, List.map_cons, List.map_nil, List.mem_cons,
      List.not_mem_nil, or_false, not_or] at hk
    obtain ⟨h1, h2, h3, h4⟩ := hk
    show hget (hset (hset (hset (hset res _ _) _ _) _ _) _ _) _ = _
    rw [hget_hset_ne _ _ _ _ h4, hget_hset_ne _ _ _ _ h3,
        hget_hset_ne _ _ _ _ h2, hget_hset_ne _ _ _ _ h1]

/-- Witness for default_headers_win_merge: a handler that set its own
x-frame-options value ends up with the default DENY, while a header the
defaults do not mention is preserved. -/
theorem default_headers_win_merge_witness :
    (("X-Frame-Options", "DENY") ∈ default_headers ∧
      hget (apply_default_headers [("x-frame-options", "SAMEORIGIN")]) "X-Frame-Options"
        = some "DENY") ∧
    (lowerStr "Content-Type"
        ∉ default_headers.map (fun kv => lowerStr kv.1) ∧
      hget (apply_default_headers [("content-type", "text/html")]) "Content-Type"
        = hget [("content-type", "text/html")] "Content-Type") :=
  ⟨⟨by decide,
    (default_headers_win_merge [("x-frame-options", "SAMEORIGIN")]).1
      "X-Frame-Options" "DENY" (by decide)⟩,
   ⟨by decide,
    (default_headers_win_merge [("content-type", "text/html")]).2
      "Content-Type" (by decide)⟩⟩

/-- Folding the conditional allow-list copy over a list of pairwise
distinct names, starting from a header set that holds none of them,
produces exactly the present allow-listed headers. -/
theorem hget_foldl_allow (reqHeaders : List (String × String)) :
    ∀ (keys : List String) (hs : List (String × String)) (k : String),
      (lowerStr k ∈ keys.map lowerStr → hget hs k = none) →
      (keys.map lowerStr).Nodup →
      hget (keys.foldl
          (fun hs key =>
            match hget reqHeaders key with
            | some value => hset hs key value
            | none => hs) hs) k
        = if lowerStr k ∈ keys.map lowerStr then hget reqHeaders k else hget hs k := by
  intro keys
  induction keys with
  | nil =>
    intro hs k _ _
    simp
  | cons d rest ih =>
    intro hs k hinv hnd
    rw [List.map_cons] at hnd
    have hdnotin : lowerStr d ∉ rest.map lowerStr := (List.nodup_cons.mp hnd).1
    have hndrest : (rest.map lowerStr).Nodup := (List.nodup_cons.mp hnd).2
    rw [List.foldl_cons]
    cases hd : hget reqHeaders d with
    | some v =>
      simp only [hd]
      by_cases hk : lowerStr k = lowerStr d
      · have hnotrest : lowerStr k ∉ rest.map lowerStr := by rw [hk]; exact hdnotin
        rw [ih (hset hs d v) k (fun hmem => absurd hmem hnotrest) hndrest,
            if_neg hnotrest, if_pos (by simp [hk]),
            hget_hset_eq hs d k v hk, hget_congr reqHeaders k d hk, hd]
      · have hinv2 : lowerStr k ∈ rest.map lowerStr → hget (hset hs d v) k = none := by
          intro hmem
          rw [hget_hset_ne hs d k v hk]
          exact hinv (by simp [hmem])
        rw [ih (hset hs d v) k hinv2 hndrest]
        by_cases hmem : lowerStr k ∈ rest.map lowerStr
        · rw [if_pos hmem, if_pos (by simp [hmem])]
        · rw [if_neg hmem, if_neg (by simp [hk, hmem]), hget_hset_ne hs d k v hk]
    | none =>
      simp only [hd]
      by_cases hk : lowerStr k = lowerStr d
      · have hnotrest : lowerStr k ∉ rest.map lowerStr := by rw [hk]; exact hdnotin
        rw [ih hs k (fun hmem => absurd hmem hnotrest) hndrest,
            if_neg hnotrest, if_pos (by simp [hk]),
            hinv (by simp [hk]), hget_congr reqHeaders k d hk, hd]
      · rw [ih hs k (fun hmem => hinv (by simp [hmem])) hndrest]
        by_cases hmem : lowerStr k ∈ rest.map lowerStr
        · rw [if_pos hmem, if_pos (by simp [hmem])]
        · rw [if_neg hmem, if_neg (by simp [hk, hmem])]

/-- C8: the outbound proxy request carries exactly the allow-listed
inbound headers that are present (every other inbound header is
dropped), and the relayed response drops exactly the deny-listed
headers while keeping status, status text, remaining headers and the
body stream unmodified. -/
theorem proxy_header_filtering (reqHeaders : List (String × String)) (k : String)
    (upstream : UpstreamResponse) :
    (hget (outbound_proxy_headers reqHeaders) k
       = if lowerStr k ∈ allowed_request_headers.map lowerStr then hget reqHeaders k
         else none) ∧
    (hget (stream_response upstream).headers k
       = if lowerStr k ∈ denied_response_headers.map lowerStr then none
         else hget upstream.headers k) ∧
    (stream_response upstream).status = upstream.status ∧
    (stream_response upstream).statusText = upstream.statusText ∧
    (stream_response upstream).body = upstream.body := by
  refine ⟨?_, ?_, rfl, rfl, rfl⟩
  · exact hget_foldl_allow reqHeaders allowed_request_headers [] k (fun _ => rfl) (by decide)
  · exact hget_foldl_hdelete denied_response_headers upstream.headers k

/-- A replace pass whose pattern contains a character that does not
occur in the scanned list leaves the list unchanged. -/
theorem replaceGo_no_occ (p : Char) (ps rep : List Char) (co : Char) (hmem : co ∈ p :: ps) :
    ∀ (f : Nat) (l : List Char), co ∉ l → replaceGo p ps rep f l = l := by
  intro f
  induction f with
  | zero => intro l _; rfl
  | succ f ih =>
    intro l hl
    cases l with
    | nil => rfl
    | cons c rest =>
      have hpf : ¬ (p :: ps).isPrefixOf (c :: rest) = true := by
        intro hpf
        exact hl ((List.isPrefixOf_iff_prefix.mp hpf).subset hmem)
      show (if (p :: ps).isPrefixOf (c :: rest) then
              rep ++ replaceGo p ps rep f (rest.drop ps.length)
            else c :: replaceGo p ps rep f rest) = c :: rest
      rw [if_neg hpf, ih rest (fun hr => hl (List.mem_cons_of_mem c hr))]

/-- The fuel of replaceGo is irrelevant once it covers the length of the
scanned list. -/
theorem replaceGo_fuel (p : Char) (ps rep : List Char) :
    ∀ (f1 f2 : Nat) (l : List Char), l.length ≤ f1 → l.length ≤ f2 →
      replaceGo p ps rep f1 l = replaceGo p ps rep f2 l := by
  intro f1
  induction f1 with
  | zero =>
    intro f2 l h1 _
    have hl : l = [] := List.length_eq_zero.mp (Nat.le_zero.mp h1)
    subst hl
    cases f2 <;> rfl
  | succ f1 ih =>
    intro f2 l h1 h2
    cases l with
    | nil => cases f2 <;> rfl
    | cons c rest =>
      cases f2 with
      | zero => simp at h2
      | succ f2 =>
        show (if (p :: ps).isPrefixOf (c :: rest) then
                rep ++ replaceGo p ps rep f1 (rest.drop ps.length)
              else c :: replaceGo p ps rep f1 rest)
            = (if (p :: ps).isPrefixOf (c :: rest) then
                rep ++ replaceGo p ps rep f2 (rest.drop ps.length)
              else c :: replaceGo p ps rep f2 rest)
        simp only [List.length_cons] at h1 h2
        by_cases hpf : (p :: ps).isPrefixOf (c :: rest) = true
        · rw [if_pos hpf, if_pos hpf,
              ih f2 (rest.drop ps.length)
                (by simp only [List.length_drop]; omega)
                (by simp only [List.length_drop]; omega)]
        · rw [if_neg hpf, if_neg hpf, ih f2 rest (by omega) (by omega)]

/-- Distribution of a replace pass over an appended suffix that does not
contain the final character of the pattern: no occurrence of the pattern
can end inside or reach into the suffix, so the suffix passes through
untouched. -/
theorem replaceGo_append (p : Char) (ps rep : List Char) (pre : List Char) (co : Char)
    (hpat : p :: ps = pre ++ [co]) (l2 : List Char) (hco : co ∉ l2) :
    ∀ (n : Nat) (l1 : List Char) (f g : Nat), l1.length ≤ n →
      (l1 ++ l2).length ≤ f → l1.length ≤ g →
      replaceGo p ps rep f (l1 ++ l2) = replaceGo p ps rep g l1 ++ l2 := by
  have hmem : co ∈ p :: ps := by
    rw [hpat]
    exact List.mem_append_right pre (List.mem_singleton.mpr rfl)
  intro n
  induction n with
  | zero =>
    intro l1 f g h1 hf hg
    have hl : l1 = [] := List.length_eq_zero.mp (Nat.le_zero.mp h1)
    subst hl
    rw [List.nil_append, replaceGo_no_occ p ps rep co hmem f l2 hco]
    cases g <;> rfl
  | succ n ih =>
    intro l1 f g h1 hf hg
    cases l1 with
    | nil =>
      rw [List.nil_append, replaceGo_no_occ p ps rep co hmem f l2 hco]
      cases g <;> rfl
    | cons c rest =>
      cases f with
      | zero => simp at hf
      | succ f =>
        cases g with
        | zero => simp at hg
        | succ g =>
          show (if (p :: ps).isPrefixOf (c :: (rest ++ l2)) then
                  rep ++ replaceGo p ps rep f ((rest ++ l2).drop ps.length)
                else c :: replaceGo p ps rep f (rest ++ l2))
              = (if (p :: ps).isPrefixOf (c :: rest) then
                  rep ++ replaceGo p ps rep g (rest.drop ps.length)
                else c :: replaceGo p ps rep g rest) ++ l2
          simp only [List.length_cons] at h1 hg
          have hflen : rest.length + l2.length + 1 ≤ f + 1 := by
            simp only [List.length_append, List.length_cons] at hf
            omega
          by_cases hpf : (p :: ps).isPrefixOf (c :: rest) = true
          · have hpf2 : (p :: ps).isPrefixOf (c :: (rest ++ l2)) = true := by
              apply List.isPrefixOf_iff_prefix.mpr
              exact (List.isPrefixOf_iff_prefix.mp hpf).trans
                (show (c :: rest) <+: (c :: rest) ++ l2 from List.prefix_append _ _)
            have hlen : ps.length ≤ rest.length := by
              have hle := (List.isPrefixOf_iff_prefix.mp hpf).length_le
              simp only [List.length_cons] at hle
              omega
            rw [if_pos hpf, if_pos hpf2, List.drop_append_of_le_length hlen,
                ih (rest.drop ps.length) f g
                  (by simp only [List.length_drop]; omega)
                  (by simp only [List.length_append, List.length_drop]; omega)
                  (by simp only [List.length_drop]; omega),
                List.append_assoc]
          · by_cases hpf2 : (p :: ps).isPrefixOf (c :: (rest ++ l2)) = true
            · exfalso
              have hpre2 := List.isPrefixOf_iff_prefix.mp hpf2
              by_cases hlen : (p :: ps).length ≤ (c :: rest).length
              · apply hpf
                apply List.isPrefixOf_iff_prefix.mpr
                have htake := List.prefix_iff_eq_take.mp hpre2
                rw [show c :: (rest ++ l2) = (c :: rest) ++ l2 from rfl,
                    List.take_append_of_le_length hlen] at htake
                rw [htake]
                exact List.take_prefix _ _
              · obtain ⟨t, ht⟩ := hpre2
                rw [hpat] at ht
                have ht2 : pre ++ (co :: t) = (c :: rest) ++ l2 := by
                  rw [show (c :: rest) ++ l2 = c :: (rest ++ l2) from rfl, ← ht]
                  simp [List.append_assoc]
                have hlen2 : (c :: rest).length ≤ pre.length := by
                  have hplen : (p :: ps).length = pre.length + 1 := by
                    rw [hpat]
                    simp
                  simp only [List.length_cons] at hlen hplen ⊢
                  omega
                have hl2 : l2 = pre.drop (c :: rest).length ++ (co :: t) := by
                  have hd := List.drop_left (c :: rest) l2
                  rw [← ht2, List.drop_append_of_le_length hlen2] at hd
                  exact hd.symm
                apply hco
                rw [hl2]
                exact List.mem_append_right _ (List.mem_cons_self co t)
            · rw [if_neg hpf, if_neg hpf2,
                  ih rest f g (by omega)
                    (by simp only [List.length_append]; omega)
                    (by omega)]
              rfl

/-- Distribution of one Rust replace over an appended suffix free of the
closing brace, at the string level. -/
theorem rustReplace_append (s1 s2 name v : String)
    (hco : Char.ofNat 125 ∉ s2.toList) :
    rustReplace (s1 ++ s2) ("\x7b" ++ name ++ "\x7d") v
      = rustReplace s1 ("\x7b" ++ name ++ "\x7d") v ++ s2 := by
  have hdata : ("\x7b" ++ name ++ "\x7d").toList
      = Char.ofNat 123 :: (name.toList ++ [Char.ofNat 125]) := by
    show (("\x7b" ++ name) ++ "\x7d").data = _
    rw [String.data_append, String.data_append,
        show "\x7b".data = [Char.ofNat 123] by decide,
        show "\x7d".data = [Char.ofNat 125] by decide]
    simp
  unfold rustReplace
  rw [hdata]
  show String.mk (replaceGo (Char.ofNat 123) (name.toList ++ [Char.ofNat 125]) v.toList
        (s1 ++ s2).toList.length (s1 ++ s2).toList)
      = String.mk (replaceGo (Char.ofNat 123) (name.toList ++ [Char.ofNat 125]) v.toList
        s1.toList.length s1.toList) ++ s2
  apply String.ext
  show replaceGo (Char.ofNat 123) (name.toList ++ [Char.ofNat 125]) v.toList
        (s1 ++ s2).toList.length (s1 ++ s2).toList
      = (String.mk (replaceGo (Char.ofNat 123) (name.toList ++ [Char.ofNat 125]) v.toList
          s1.toList.length s1.toList) ++ s2).data
  rw [String.data_append,
      show (s1 ++ s2).toList = s1.toList ++ s2.toList from String.data_append s1 s2]
  exact replaceGo_append (Char.ofNat 123) (name.toList ++ [Char.ofNat 125]) v.toList
    (Char.ofNat 123 :: name.toList) (Char.ofNat 125) (by simp) s2.toList hco
    s1.toList.length s1.toList (s1.toList ++ s2.toList).length s1.toList.length
    (Nat.le_refl _) (Nat.le_refl _) (Nat.le_refl _)

/-- Distribution of the whole parameter-substitution loop over an
appended suffix free of the closing brace. -/
theorem substParams_append (s2 : String) (hco : Char.ofNat 125 ∉ s2.toList) :
    ∀ (params : List (String × String)) (t : String),
      substParams (t ++ s2) params = substParams t params ++ s2 := by
  intro params
  induction params with
  | nil => intro t; rfl
  | cons kv rest ih =>
    intro t
    show substParams (rustReplace (t ++ s2) ("\x7b" ++ kv.1 ++ "\x7d") kv.2) rest
        = substParams (rustReplace t ("\x7b" ++ kv.1 ++ "\x7d") kv.2) rest ++ s2
    rw [rustReplace_append t s2 kv.1 kv.2 hco]
    exact ih (rustReplace t ("\x7b" ++ kv.1 ++ "\x7d") kv.2)

/-- C9 counterexample: proxy appends the query string to the template
before running parameter substitution, so a query that itself contains a
parameter placeholder is substituted too — it is not appended
verbatim. -/
theorem proxy_query_not_verbatim_cex :
    proxyUrl "https://i.redd.it/\x7bpath\x7d" [("path", "abc")] "?q=\x7bpath\x7d"
      = "https://i.redd.it/abc?q=abc" ∧
    proxyUrl "https://i.redd.it/\x7bpath\x7d" [("path", "abc")] "?q=\x7bpath\x7d"
      ≠ substParams "https://i.redd.it/\x7bpath\x7d" [("path", "abc")] ++ "?q=\x7bpath\x7d" := by
  have h1 : proxyUrl "https://i.redd.it/\x7bpath\x7d" [("path", "abc")] "?q=\x7bpath\x7d"
      = "https://i.redd.it/abc?q=abc" := by decide
  have h2 : substParams "https://i.redd.it/\x7bpath\x7d" [("path", "abc")]
      = "https://i.redd.it/abc" := by decide
  refine ⟨h1, ?_⟩
  rw [h1, h2]
  decide

/-- C9 amended: the outbound proxy URL is the parameter substitution of
the template with the query appended first; whenever the query carries
no closing brace — in particular for the rewritten empty query — this
equals the substituted template with the (possibly rewritten) query
appended verbatim. -/
theorem proxy_url_append_subst (template : String) (params : List (String × String))
    (rawSearch : String) (hq : Char.ofNat 125 ∉ rawSearch.toList) :
    proxyUrl template params rawSearch
      = substParams template params ++ uriSearch rawSearch := by
  unfold proxyUrl
  have hq2 : Char.ofNat 125 ∉ (uriSearch rawSearch).toList := by
    unfold uriSearch
    split
    · decide
    · exact hq
  exact substParams_append (uriSearch rawSearch) hq2 params template

/-- Witness for proxy_url_append_subst: an empty inbound query is
rewritten to the placeholder query and appended after substitution. -/
theorem proxy_url_append_subst_witness :
    (Char.ofNat 125 ∉ "".toList) ∧
    proxyUrl "https://v.redd.it/\x7bid\x7d/DASH_\x7bsize\x7d"
        [("id", "abc"), ("size", "720")] ""
      = substParams "https://v.redd.it/\x7bid\x7d/DASH_\x7bsize\x7d"
          [("id", "abc"), ("size", "720")] ++ uriSearch "" :=
  ⟨by decide,
   proxy_url_append_subst "https://v.redd.it/\x7bid\x7d/DASH_\x7bsize\x7d"
     [("id", "abc"), ("size", "720")] "" (by decide)⟩

end Libreddit
